import Mathlib

/-!
Verification of the sdannce volumetric-sample pipeline
(`src/dannce/engine/run/data.py`) against its natural-language
specification.  The Python functions relevant to the checked claims are
shallowly embedded below: dictionaries become total or `Option`-valued
functions, numpy float arrays become lists of rational vectors (with
`Option` as the NaN sentinel), and the file system becomes an explicit
listing structure.  Coordinates use `ℚ` so that every definition stays
executable; the one genuinely real-valued operation (`np.sqrt` in the
social big-volume distance test) is handled by comparing squared
quantities, and the equivalence with the real square-root comparison is
proved, not assumed.
-/

set_option autoImplicit false

/-- A 3D point / vector with exact rational coordinates, standing for a
row of a numpy `float` array of shape `[3]`. -/
structure Vec3 where
  x : ℚ
  y : ℚ
  z : ℚ
deriving DecidableEq

/-- A Pose3D array of shape `[3, n_kpts]`, viewed per keypoint column.
`none` models an (entirely-NaN) keypoint column, `some v` a finite
3-vector.  The pipeline writes NaN columns wholesale (`np.nan * ones`),
so the column granularity is faithful to every operation embedded
here. -/
abbrev Pose : Type := List (Option Vec3)

def vecAdd (a b : Vec3) : Vec3 := ⟨a.x + b.x, a.y + b.y, a.z + b.z⟩

/-! ### Social big-volume merge policy

Embeds `make_dataset`, `src/dannce/engine/run/data.py:123-168`. -/

/-- `threshold = (vmax - vmin) / 2` (data.py:125). -/
def bigVolThreshold (vmin vmax : ℚ) : ℚ := (vmax - vmin) / 2

/-- Squared Euclidean distance between two COMs;
`np.sum((anchor1 - anchor2) ** 2)` (data.py:137). -/
def distSq (a b : Vec3) : ℚ :=
  (a.x - b.x) ^ 2 + (a.y - b.y) ^ 2 + (a.z - b.z) ^ 2

/-- The merge test `np.sqrt(np.sum((anchor1 - anchor2)**2)) <= threshold`
(data.py:137-139), written in squared form so it is computable over `ℚ`:
for `d ≥ 0`, `sqrt d ≤ t ↔ 0 ≤ t ∧ d ≤ t²` (proved exactly in
`sqrt_le_iff_rat` below). -/
def mergesBigVolume (vmin vmax : ℚ) (a b : Vec3) : Bool :=
  decide (0 ≤ bigVolThreshold vmin vmax ∧
    distSq a b ≤ bigVolThreshold vmin vmax ^ 2)

/-- `new_com = (anchor1 + anchor2) / 2` (data.py:141). -/
def comMidpoint (a b : Vec3) : Vec3 :=
  ⟨(a.x + b.x) / 2, (a.y + b.y) / 2, (a.z + b.z) / 2⟩

/-- `primary/secondary` selection and channel-axis concatenation
(data.py:142-147): the pose whose anchor has the smaller coordinate on
axis 0 comes first. -/
def mergedPose (anchor1 anchor2 : Vec3) (pose1 pose2 : Pose) : Pose :=
  let primary := if anchor1.x < anchor2.x then pose1 else pose2
  let secondary := if anchor1.x < anchor2.x then pose2 else pose1
  primary ++ secondary

/-- Result recorded for a merging pair: the surviving sample ID (`vol1`),
the combined COM (`np.squeeze(new_com)`, data.py:151) and the combined
pose (data.py:145-148). -/
structure MergeResult where
  sampleID : String
  com : Vec3
  pose : Pose
deriving DecidableEq

/-- Body of the pair loop (data.py:133-152): a pair contributes a merged
sample (under `vol1`'s ID) exactly when the distance test passes;
otherwise it contributes nothing — there is no `else` branch in the
source, so non-merging pairs are dropped. -/
def processPair (vmin vmax : ℚ) (com3d : String → Vec3) (data3d : String → Pose)
    (pr : String × String) : Option MergeResult :=
  if mergesBigVolume vmin vmax (com3d pr.1) (com3d pr.2) then
    some ⟨pr.1, comMidpoint (com3d pr.1) (com3d pr.2),
      mergedPose (com3d pr.1) (com3d pr.2) (data3d pr.1) (data3d pr.2)⟩
  else none

/-- The loop over one split's pair list (data.py:131-153). -/
def processPairs (vmin vmax : ℚ) (com3d : String → Vec3) (data3d : String → Pose)
    (prs : List (String × String)) : List MergeResult :=
  prs.filterMap (processPair vmin vmax com3d data3d)

/-- `samps`, the sample IDs kept in the new partition for one split
(data.py:132-153). -/
def bigVolumeSampleIDs (vmin vmax : ℚ) (com3d : String → Vec3)
    (data3d : String → Pose) (prs : List (String × String)) : List String :=
  (processPairs vmin vmax com3d data3d prs).map MergeResult.sampleID

/-- `params["vmin"] = vmin - threshold / 2` (data.py:164). -/
def bigVolNewVmin (vmin vmax : ℚ) : ℚ := vmin - bigVolThreshold vmin vmax / 2

/-- `params["vmax"] = vmax + threshold / 2` (data.py:165). -/
def bigVolNewVmax (vmin vmax : ℚ) : ℚ := vmax + bigVolThreshold vmin vmax / 2

lemma distSq_nonneg (a b : Vec3) : 0 ≤ distSq a b := by
  unfold distSq
  positivity

/-- For nonnegative `d`, the real comparison `sqrt d ≤ t` coincides with
the rational comparison `0 ≤ t ∧ d ≤ t²` used by `mergesBigVolume`. -/
lemma sqrt_le_iff_rat (d t : ℚ) (hd : 0 ≤ d) :
    Real.sqrt (d : ℝ) ≤ (t : ℝ) ↔ (0 ≤ t ∧ d ≤ t ^ 2) := by
  constructor
  · intro h
    have ht : (0 : ℝ) ≤ (t : ℝ) := le_trans (Real.sqrt_nonneg _) h
    have ht' : (0 : ℚ) ≤ t := by exact_mod_cast ht
    refine ⟨ht', ?_⟩
    have hd' : (0 : ℝ) ≤ (d : ℝ) := by exact_mod_cast hd
    have h2 : (d : ℝ) ≤ (t : ℝ) ^ 2 := by
      calc (d : ℝ) = Real.sqrt (d : ℝ) ^ 2 := (Real.sq_sqrt hd').symm
        _ ≤ (t : ℝ) ^ 2 := by
            exact pow_le_pow_left₀ (Real.sqrt_nonneg _) h 2
    have : ((d : ℚ) : ℝ) ≤ ((t ^ 2 : ℚ) : ℝ) := by push_cast; exact h2
    exact_mod_cast this
  · rintro ⟨ht, h2⟩
    have ht' : (0 : ℝ) ≤ (t : ℝ) := by exact_mod_cast ht
    have h2' : (d : ℝ) ≤ (t : ℝ) ^ 2 := by
      have : ((d : ℚ) : ℝ) ≤ ((t ^ 2 : ℚ) : ℝ) := by exact_mod_cast h2
      push_cast at this
      exact this
    calc Real.sqrt (d : ℝ) ≤ Real.sqrt ((t : ℝ) ^ 2) := Real.sqrt_le_sqrt h2'
      _ = (t : ℝ) := Real.sqrt_sq ht'

/-- C1: in the social big-volume policy a pair merges exactly when the
Euclidean distance between the two COMs is at most `(vmax - vmin)/2`;
the merged sample's COM is the componentwise midpoint of the two COMs,
and the configured extent becomes
`[vmin - (vmax - vmin)/4, vmax + (vmax - vmin)/4]`. -/
theorem bigVolume_merge_correct (vmin vmax : ℚ) (com3d : String → Vec3)
    (data3d : String → Pose) (pr : String × String) :
    ((processPair vmin vmax com3d data3d pr).isSome = true ↔
      Real.sqrt ((distSq (com3d pr.1) (com3d pr.2) : ℚ) : ℝ) ≤
        ((bigVolThreshold vmin vmax : ℚ) : ℝ))
    ∧ (∀ res, processPair vmin vmax com3d data3d pr = some res →
        res.com = comMidpoint (com3d pr.1) (com3d pr.2) ∧ res.sampleID = pr.1)
    ∧ bigVolNewVmin vmin vmax = vmin - (vmax - vmin) / 4
    ∧ bigVolNewVmax vmin vmax = vmax + (vmax - vmin) / 4 := by
  refine ⟨?_, ?_, ?_, ?_⟩
  · rw [sqrt_le_iff_rat _ _ (distSq_nonneg _ _)]
    unfold processPair mergesBigVolume
    constructor
    · intro h
      by_contra hc
      rw [if_neg (by simpa using hc)] at h
      simp at h
    · intro h
      rw [if_pos (by simpa using h)]
      rfl
  · intro res h
    unfold processPair at h
    by_cases hm : mergesBigVolume vmin vmax (com3d pr.1) (com3d pr.2)
    · rw [if_pos hm] at h
      cases h
      exact ⟨rfl, rfl⟩
    · rw [if_neg hm] at h
      cases h
  · unfold bigVolNewVmin bigVolThreshold; ring
  · unfold bigVolNewVmax bigVolThreshold; ring

/-- Concrete COM table for the C1 witness: the two instances sit 10 apart
on the x axis. -/
def wCom : String → Vec3 := fun s => if s = "0_1" then ⟨0, 0, 0⟩ else ⟨10, 0, 0⟩

/-- Concrete (empty) pose table for the C1 witness. -/
def wData : String → Pose := fun _ => ([] : List (Option Vec3))

/-- Witness for C1 at a concrete merging pair: with `vmin = -60`,
`vmax = 60` and COMs at distance 10 the pair merges, and the recorded COM
is the midpoint `(5,0,0)`. -/
theorem bigVolume_merge_correct_witness :
    ({ sampleID := "0_1", com := ⟨5, 0, 0⟩, pose := ([] : List (Option Vec3)) }
        : MergeResult).com = comMidpoint (wCom "0_1") (wCom "1_1")
    ∧ ({ sampleID := "0_1", com := ⟨5, 0, 0⟩, pose := ([] : List (Option Vec3)) }
        : MergeResult).sampleID = ("0_1", "1_1").1 :=
  (bigVolume_merge_correct (-60) 60 wCom wData ("0_1", "1_1")).2.1
    ⟨"0_1", ⟨5, 0, 0⟩, ([] : List (Option Vec3))⟩ (by
      simp +decide [processPair, mergesBigVolume, distSq, bigVolThreshold, wCom,
        wData, comMidpoint, mergedPose]
      norm_num)

/-- Concrete COM table for the C2 counterexample: the two instances sit
100 apart on the x axis, beyond the threshold 60. -/
def cCom : String → Vec3 := fun s => if s = "0_1" then ⟨0, 0, 0⟩ else ⟨100, 0, 0⟩

/-- Concrete pose table for the C2 counterexample. -/
def cData : String → Pose := fun _ => ([some ⟨0, 0, 0⟩] : List (Option Vec3))

/-- Counterexample to C2: with `vmin = -60`, `vmax = 60` (threshold 60)
and COMs at distance 100 > 60, the pair-loop output for this split is
empty — neither `"0_1"` nor `"1_1"` remains in the resulting sample set,
contradicting the claim that both instances are kept as independent
samples. -/
theorem bigVolume_far_pair_not_kept :
    ¬ ("0_1" ∈ bigVolumeSampleIDs (-60) 60 cCom cData [("0_1", "1_1")])
    ∧ ¬ ("1_1" ∈ bigVolumeSampleIDs (-60) 60 cCom cData [("0_1", "1_1")])
    ∧ bigVolThreshold (-60) 60 ^ 2 < distSq (cCom "0_1") (cCom "1_1") := by
  have hlist : bigVolumeSampleIDs (-60) 60 cCom cData [("0_1", "1_1")]
      = ([] : List String) := by
    simp +decide [bigVolumeSampleIDs, processPairs, processPair, mergesBigVolume,
      distSq, bigVolThreshold, cCom, cData]
  refine ⟨?_, ?_, ?_⟩
  · rw [hlist]; simp
  · rw [hlist]; simp
  · simp +decide [bigVolThreshold, distSq, cCom]

/-- C2 amended: the loop keeps exactly the first member (`vol1`) of each
merging pair; a pair whose COM distance exceeds the threshold contributes
nothing, so neither of its instances appears in the resulting sample
set. -/
theorem bigVolume_kept_iff_merging (vmin vmax : ℚ) (com3d : String → Vec3)
    (data3d : String → Pose) (prs : List (String × String)) (s : String) :
    s ∈ bigVolumeSampleIDs vmin vmax com3d data3d prs ↔
      ∃ pr ∈ prs,
        mergesBigVolume vmin vmax (com3d pr.1) (com3d pr.2) = true ∧ s = pr.1 := by
  unfold bigVolumeSampleIDs processPairs
  rw [List.mem_map]
  constructor
  · rintro ⟨res, hres, hid⟩
    rw [List.mem_filterMap] at hres
    obtain ⟨pr, hpr, hp⟩ := hres
    refine ⟨pr, hpr, ?_, ?_⟩
    · unfold processPair at hp
      by_cases hm : mergesBigVolume vmin vmax (com3d pr.1) (com3d pr.2)
      · exact hm
      · rw [if_neg hm] at hp; cases hp
    · unfold processPair at hp
      by_cases hm : mergesBigVolume vmin vmax (com3d pr.1) (com3d pr.2)
      · rw [if_pos hm] at hp
        cases hp
        exact hid.symm
      · rw [if_neg hm] at hp; cases hp
  · rintro ⟨pr, hpr, hm, hs⟩
    refine ⟨⟨pr.1, comMidpoint (com3d pr.1) (com3d pr.2),
      mergedPose (com3d pr.1) (com3d pr.2) (data3d pr.1) (data3d pr.2)⟩, ?_, hs.symm⟩
    rw [List.mem_filterMap]
    exact ⟨pr, hpr, by unfold processPair; rw [if_pos hm]⟩

/-- C7: when a pair merges under the big-volume policy, the combined
Pose3D is the concatenation of the two instances' poses along the
keypoint-channel axis, the primary (first) block coming from the
instance whose COM has the smaller axis-0 coordinate. -/
theorem bigVolume_concat_order (vmin vmax : ℚ) (com3d : String → Vec3)
    (data3d : String → Pose) (pr : String × String) :
    ((com3d pr.1).x < (com3d pr.2).x →
      ∀ res, processPair vmin vmax com3d data3d pr = some res →
        res.pose = data3d pr.1 ++ data3d pr.2)
    ∧ ((com3d pr.2).x < (com3d pr.1).x →
      ∀ res, processPair vmin vmax com3d data3d pr = some res →
        res.pose = data3d pr.2 ++ data3d pr.1) := by
  constructor
  · intro hlt res hres
    unfold processPair at hres
    by_cases hm : mergesBigVolume vmin vmax (com3d pr.1) (com3d pr.2)
    · rw [if_pos hm] at hres
      cases hres
      unfold mergedPose
      rw [if_pos hlt, if_pos hlt]
    · rw [if_neg hm] at hres; cases hres
  · intro hgt res hres
    unfold processPair at hres
    by_cases hm : mergesBigVolume vmin vmax (com3d pr.1) (com3d pr.2)
    · rw [if_pos hm] at hres
      cases hres
      unfold mergedPose
      have hnlt : ¬ (com3d pr.1).x < (com3d pr.2).x := not_lt_of_gt hgt
      rw [if_neg hnlt, if_neg hnlt]
    · rw [if_neg hm] at hres; cases hres

/-- Concrete COM table for the C7 witness. -/
def w7Com : String → Vec3 := fun s => if s = "0_1" then ⟨0, 0, 0⟩ else ⟨10, 0, 0⟩

/-- Concrete pose table for the C7 witness: instance 1 carries a valid
keypoint, instance 2 an unset one. -/
def w7Data : String → Pose := fun s =>
  if s = "0_1" then ([some ⟨1, 1, 1⟩] : List (Option Vec3))
  else ([none] : List (Option Vec3))

/-- Witness for C7 at a concrete merging pair with
`(w7Com "0_1").x = 0 < 10 = (w7Com "1_1").x`: the combined pose is
instance 1's block followed by instance 2's block. -/
theorem bigVolume_concat_order_witness :
    ({ sampleID := "0_1", com := ⟨5, 0, 0⟩,
        pose := ([some ⟨1, 1, 1⟩, none] : List (Option Vec3)) } : MergeResult).pose
      = w7Data ("0_1", "1_1").1 ++ w7Data ("0_1", "1_1").2 :=
  (bigVolume_concat_order (-60) 60 w7Com w7Data ("0_1", "1_1")).1
    (by simp +decide [w7Com])
    ⟨"0_1", ⟨5, 0, 0⟩, ([some ⟨1, 1, 1⟩, none] : List (Option Vec3))⟩
    (by
      simp +decide [processPair, mergesBigVolume, distSq, bigVolThreshold, w7Com,
        w7Data, comMidpoint, mergedPose]
      norm_num)

/-! ### Train/valid partition of `make_pair`

Embeds `make_pair`, `src/dannce/engine/run/data.py:1451-1476`: the train
split is the sample list after loading the training experiments, the
valid split is `sorted(list(set(samples) - set(train)))` after the test
experiments extend the same list.  Python's `sorted` and `set` only
permute and deduplicate, so the embedding keeps the defining membership
structure (`dedup` + `filter`). -/

/-- `partition["train_sampleIDs"] = sorted(samples)` (data.py:1451),
taken after `_convert_pair_to_label3d` on the training experiments. -/
def pairPartitionTrain (samplesTrain : List String) : List String :=
  samplesTrain

/-- `partition["valid_sampleIDs"] = sorted(list(set(samples) -
set(partition["train_sampleIDs"])))` (data.py:1473-1475), where `samples`
now also holds the test-experiment IDs. -/
def pairPartitionValid (samplesAll trainIDs : List String) : List String :=
  samplesAll.dedup.filter (fun s => decide (s ∉ trainIDs))

/-- C5: for the assembled pair dataset the train and valid sample-ID sets
are disjoint and their union is the full original sample set
(`samplesTrain ++ samplesTest`; no augmentation samples exist at this
point of `make_pair`). -/
theorem pair_partition_disjoint_union (samplesTrain samplesTest : List String) :
    (∀ s, ¬ (s ∈ pairPartitionTrain samplesTrain ∧
        s ∈ pairPartitionValid (samplesTrain ++ samplesTest)
          (pairPartitionTrain samplesTrain)))
    ∧ (∀ s, (s ∈ pairPartitionTrain samplesTrain ∨
        s ∈ pairPartitionValid (samplesTrain ++ samplesTest)
          (pairPartitionTrain samplesTrain)) ↔
        s ∈ samplesTrain ++ samplesTest) := by
  constructor
  · rintro s ⟨htr, hv⟩
    unfold pairPartitionValid pairPartitionTrain at hv
    rw [List.mem_filter] at hv
    have := hv.2
    simp at this
    exact this htr
  · intro s
    unfold pairPartitionValid pairPartitionTrain
    constructor
    · rintro (h | h)
      · exact List.mem_append_left _ h
      · rw [List.mem_filter, List.mem_dedup] at h
        exact h.1
    · intro h
      by_cases htr : s ∈ samplesTrain
      · exact Or.inl htr
      · refine Or.inr ?_
        rw [List.mem_filter, List.mem_dedup]
        exact ⟨h, by simpa using htr⟩

/-! ### Dataset-kind dispatch

Embeds `set_dataset`, `src/dannce/engine/run/data.py:50-61`. -/

/-- The dataset-preparer functions `set_dataset` can return. -/
inductive DatasetKind
  | rat7m
  | pair
  | label3d
deriving DecidableEq

/-- `set_dataset` (data.py:50-61).  The `"rat7m+pair"` branch executes
`spec_args = {**spec_args, "merge_pair": True}` where the local variable
`spec_args` is read before any assignment to it, which in Python raises
`UnboundLocalError`; that branch is therefore embedded as an error
value.  Every other value of `params["dataset"]` selects a preparer
without raising (`"rat7m"` -> make_rat7m, `"pair"` -> make_pair,
anything else -> make_dataset). -/
def set_dataset (dataset : String) : Except String DatasetKind :=
  if dataset = "rat7m" then Except.ok DatasetKind.rat7m
  else if dataset = "rat7m+pair" then
    Except.error "UnboundLocalError: spec_args referenced before assignment"
  else if dataset = "pair" then Except.ok DatasetKind.pair
  else Except.ok DatasetKind.label3d

/-- C9: `set_dataset` fails exactly on `"rat7m+pair"`; every other
dataset string yields a preparer. -/
theorem set_dataset_raises_iff (s : String) :
    (set_dataset s).isOk = false ↔ s = "rat7m+pair" := by
  unfold set_dataset
  by_cases h1 : s = "rat7m"
  · rw [if_pos h1]
    constructor
    · intro h; cases h
    · intro h; rw [h1] at h; exact absurd h (by decide)
  · rw [if_neg h1]
    by_cases h2 : s = "rat7m+pair"
    · rw [if_pos h2]
      exact ⟨fun _ => h2, fun _ => rfl⟩
    · rw [if_neg h2]
      by_cases h3 : s = "pair"
      · rw [if_pos h3]
        constructor
        · intro h; cases h
        · intro h; exact absurd h h2
      · rw [if_neg h3]
        constructor
        · intro h; cases h
        · intro h; exact absurd h h2

/-- Witness for C9: the `"rat7m+pair"` branch errors while `"rat7m"`,
`"pair"` and an arbitrary other string succeed. -/
theorem set_dataset_raises_iff_witness :
    (set_dataset "rat7m+pair").isOk = false
    ∧ (set_dataset "rat7m").isOk = true
    ∧ (set_dataset "pair").isOk = true
    ∧ (set_dataset "label3d").isOk = true := by
  refine ⟨(set_dataset_raises_iff "rat7m+pair").mpr rfl, ?_, ?_, ?_⟩
  · cases hv : (set_dataset "rat7m").isOk
    · exact absurd ((set_dataset_raises_iff "rat7m").mp hv) (by decide)
    · rfl
  · cases hv : (set_dataset "pair").isOk
    · exact absurd ((set_dataset_raises_iff "pair").mp hv) (by decide)
    · rfl
  · cases hv : (set_dataset "label3d").isOk
    · exact absurd ((set_dataset_raises_iff "label3d").mp hv) (by decide)
    · rfl

/-! ### COM-inference dataset preparation

Embeds `make_dataset_com_inference`,
`src/dannce/engine/run/data.py:1236-1254`. -/

/-- The negative-frame zeroing loop (data.py:1236-1239): every per-camera
frame index below zero is replaced by 0, others are kept. -/
def zeroNegativeFrames (frames : List (String × Int)) : List (String × Int) :=
  frames.map fun kv => (kv.1, if kv.2 < 0 then 0 else kv.2)

/-- Zeroing applied across the whole annotation dictionary
(`for key in datadict: for key_ in datadict[key]["frames"]`). -/
def zeroNegAllFrames (datadict : List (String × List (String × Int))) :
    List (String × List (String × Int)) :=
  datadict.map fun e => (e.1, zeroNegativeFrames e.2)

/-- `samples = ["0_" + str(f) for f in samples]` (data.py:1242), which
also becomes `partition["valid_sampleIDs"]` (data.py:1253-1254). -/
def comInferenceSampleIDs (samples : List String) : List String :=
  samples.map fun f => "0_" ++ f

/-- C10: after COM-inference preparation every stored frame index is
nonnegative (negatives became 0, nonnegatives are untouched), and every
sample ID of the returned partition carries the `"0_"` experiment
prefix. -/
theorem com_inference_frames_and_ids (datadict : List (String × List (String × Int)))
    (samples : List String) :
    (∀ e ∈ zeroNegAllFrames datadict, ∀ kv ∈ e.2, 0 ≤ kv.2)
    ∧ (∀ e ∈ datadict, ∀ kv ∈ e.2, 0 ≤ kv.2 →
        ∃ e2 ∈ zeroNegAllFrames datadict, e2.1 = e.1 ∧ kv ∈ e2.2)
    ∧ (∀ s ∈ comInferenceSampleIDs samples, ∃ t ∈ samples, s = "0_" ++ t) := by
  refine ⟨?_, ?_, ?_⟩
  · intro e he kv hkv
    unfold zeroNegAllFrames at he
    rw [List.mem_map] at he
    obtain ⟨e0, _, rfl⟩ := he
    unfold zeroNegativeFrames at hkv
    rw [List.mem_map] at hkv
    obtain ⟨kv0, _, rfl⟩ := hkv
    by_cases hneg : kv0.2 < 0
    · simp [hneg]
    · simp [hneg]
      omega
  · intro e he kv hkv hpos
    refine ⟨(e.1, zeroNegativeFrames e.2), ?_, rfl, ?_⟩
    · unfold zeroNegAllFrames
      rw [List.mem_map]
      exact ⟨e, he, rfl⟩
    · unfold zeroNegativeFrames
      rw [List.mem_map]
      refine ⟨kv, hkv, ?_⟩
      have : ¬ kv.2 < 0 := by omega
      simp [this]
  · intro s hs
    unfold comInferenceSampleIDs at hs
    rw [List.mem_map] at hs
    obtain ⟨t, ht, rfl⟩ := hs
    exact ⟨t, ht, rfl⟩

/-- Witness for C10 at a concrete annotation table holding a negative and
a positive frame index: after zeroing all frames are nonnegative, the
untouched positive entry survives, and the single sample ID is
"0_"-prefixed. -/
theorem com_inference_frames_and_ids_witness :
    (∀ e ∈ zeroNegAllFrames [("12", [("0_Camera1", (-1 : Int)), ("0_Camera2", 7)])],
      ∀ kv ∈ e.2, 0 ≤ kv.2)
    ∧ (∃ e2 ∈ zeroNegAllFrames [("12", [("0_Camera1", (-1 : Int)), ("0_Camera2", 7)])],
        e2.1 = "12" ∧ ("0_Camera2", (7 : Int)) ∈ e2.2)
    ∧ (∃ t ∈ ["12"], "0_12" = "0_" ++ t) := by
  have h := com_inference_frames_and_ids
    [("12", [("0_Camera1", (-1 : Int)), ("0_Camera2", 7)])] ["12"]
  refine ⟨h.1, ?_, ?_⟩
  · exact h.2.1 ("12", [("0_Camera1", (-1 : Int)), ("0_Camera2", 7)]) (by simp)
      ("0_Camera2", (7 : Int)) (by simp) (by norm_num)
  · exact h.2.2 "0_12" (by simp [comInferenceSampleIDs])

/-! ### Cache examination

Embeds the npy-cache examination of `make_rat7m`
(`src/dannce/engine/run/data.py:406-443`) and `make_pair`
(data.py:1545-1587), which share the same logic. -/

/-- A sample identifier, structurally: experiment index and frame
token. -/
structure CacheSampleID where
  expidx : Nat
  frame : String
deriving DecidableEq

/-- One experiment's on-disk npy folder: the root and the three
subdirectory listings (`image_volumes`, `grid_volumes`, `targets`).
`none` models an absent directory, `some l` the directory listing as
(file name, file size) pairs. -/
structure NpyExpDirs where
  rootExists : Bool
  imageVolumes : Option (List (String × Nat))
  gridVolumes : Option (List (String × Nat))
  targets : Option (List (String × Nat))
deriving DecidableEq

/-- `(not os.path.exists(dirpath)) or (len(os.listdir(dirpath)) == 0)`
(data.py:424, 1566-1568). -/
def dirAbsentOrEmpty (d : Option (List (String × Nat))) : Bool :=
  match d with
  | none => true
  | some l => l.isEmpty

/-- Whether an experiment lands in `missing_npydir` (data.py:411-426,
1551-1570): its npy root is absent, or any of the three subdirectories
is absent or has an empty listing. -/
def expNpyMissing (dirs : NpyExpDirs) : Bool :=
  !dirs.rootExists || dirAbsentOrEmpty dirs.imageVolumes ||
    dirAbsentOrEmpty dirs.gridVolumes || dirAbsentOrEmpty dirs.targets

/-- `f"0_{sampleID}.npy"` (data.py:438, 1582). -/
def npyFileName (samp : CacheSampleID) : String := "0_" ++ samp.frame ++ ".npy"

/-- `os.path.exists(os.path.join(npydir[e], "image_volumes", ...))`
(data.py:437-439, 1581-1583), as membership in the directory listing. -/
def fileExistsIn (d : Option (List (String × Nat))) (name : String) : Bool :=
  match d with
  | none => false
  | some l => l.any fun f => f.1 = name

/-- The two-stage missing-sample computation (data.py:428-443,
1572-1587): first every sample of an experiment marked missing, then —
among the rest — every sample whose per-sample `image_volumes` file is
absent.  (`set` subtraction and the final `sorted` only deduplicate and
permute; the claims are about membership.) -/
def missingSamples (fs : Nat → NpyExpDirs) (samples : List CacheSampleID) :
    List CacheSampleID :=
  let stage1 := samples.filter fun s => expNpyMissing (fs s.expidx)
  let stage2 := (samples.filter fun s => !expNpyMissing (fs s.expidx)).filter
    fun s => !fileExistsIn (fs s.expidx).imageVolumes (npyFileName s)
  stage1 ++ stage2

/-- Whether a file is present with nonzero size in a directory. -/
def fileNonEmptyIn (d : Option (List (String × Nat))) (name : String) : Bool :=
  match d with
  | none => false
  | some l => l.any fun f => f.1 = name && decide (0 < f.2)

/-- Modelled from the spec (for the refinement comparison of C4, not
from the source): "for each sample, checks a per-experiment directory
triplet (image volumes / grid volumes / targets) for a present,
non-empty file; any absence classifies the sample as missing". -/
def specSampleMissing (fs : Nat → NpyExpDirs) (s : CacheSampleID) : Bool :=
  !(fileNonEmptyIn (fs s.expidx).imageVolumes (npyFileName s) &&
    fileNonEmptyIn (fs s.expidx).gridVolumes (npyFileName s) &&
    fileNonEmptyIn (fs s.expidx).targets (npyFileName s))

/-- Concrete filesystem for the C4 counterexample: experiment 0 has all
three directories present and non-empty, sample `5`'s image file exists,
but its `targets` file does not (the targets directory holds a file of
another sample). -/
def cFS : Nat → NpyExpDirs := fun _ =>
  { rootExists := true
    imageVolumes := some [("0_5.npy", 4)]
    gridVolumes := some [("0_5.npy", 4)]
    targets := some [("0_77.npy", 4)] }

/-- Counterexample to C4: sample `(0, "5")` has no `targets` file, yet
the examination reports no missing sample — the code checks only the
per-sample `image_volumes` file (plus directory-level emptiness), never
the per-sample grid or target files, contradicting "a present, non-empty
file must exist in all three namespaces". -/
theorem cache_examine_misses_absent_target :
    missingSamples cFS [⟨0, "5"⟩] = []
    ∧ specSampleMissing cFS ⟨0, "5"⟩ = true := by
  constructor
  · rfl
  · rfl

/-- C4 amended: a sample is classified missing iff its experiment's npy
root is absent, or one of the three subdirectories is absent or has an
empty listing, or the sample's own `image_volumes` file is absent.  The
per-sample grid-volume and target files are not consulted, and file
emptiness is never checked. -/
theorem cache_examine_missing_iff (fs : Nat → NpyExpDirs)
    (samples : List CacheSampleID) (s : CacheSampleID) :
    s ∈ missingSamples fs samples ↔
      s ∈ samples ∧ (expNpyMissing (fs s.expidx) = true ∨
        fileExistsIn (fs s.expidx).imageVolumes (npyFileName s) = false) := by
  unfold missingSamples
  rw [List.mem_append, List.mem_filter, List.mem_filter, List.mem_filter]
  constructor
  · rintro (⟨hm, he⟩ | ⟨⟨hm, _⟩, hf⟩)
    · exact ⟨hm, Or.inl he⟩
    · refine ⟨hm, Or.inr ?_⟩
      simpa using hf
  · rintro ⟨hm, he | hf⟩
    · exact Or.inl ⟨hm, he⟩
    · by_cases hexp : expNpyMissing (fs s.expidx)
      · exact Or.inl ⟨hm, hexp⟩
      · refine Or.inr ⟨⟨hm, ?_⟩, ?_⟩
        · simpa using hexp
        · simpa using hf

/-- Witness for C4's amended theorem on the concrete filesystem: sample
`(0, "77")` (whose image file is absent) is reported missing, while
sample `(0, "5")` is not. -/
theorem cache_examine_missing_iff_witness :
    ((⟨0, "77"⟩ : CacheSampleID) ∈ missingSamples cFS [⟨0, "5"⟩, ⟨0, "77"⟩] ↔
      (⟨0, "77"⟩ : CacheSampleID) ∈ ([⟨0, "5"⟩, ⟨0, "77"⟩] : List CacheSampleID) ∧
        (expNpyMissing (cFS 0) = true ∨
          fileExistsIn (cFS 0).imageVolumes (npyFileName ⟨0, "77"⟩) = false))
    ∧ (⟨0, "77"⟩ : CacheSampleID) ∈ missingSamples cFS [⟨0, "5"⟩, ⟨0, "77"⟩]
    ∧ (⟨0, "5"⟩ : CacheSampleID) ∉ missingSamples cFS [⟨0, "5"⟩, ⟨0, "77"⟩] := by
  refine ⟨cache_examine_missing_iff cFS [⟨0, "5"⟩, ⟨0, "77"⟩] ⟨0, "77"⟩, ?_, ?_⟩
  · exact (cache_examine_missing_iff cFS [⟨0, "5"⟩, ⟨0, "77"⟩] ⟨0, "77"⟩).mpr
      ⟨by simp, Or.inr (by rfl)⟩
  · intro hmem
    have h := (cache_examine_missing_iff cFS [⟨0, "5"⟩, ⟨0, "77"⟩] ⟨0, "5"⟩).mp hmem
    rcases h.2 with he | hf
    · cases he
    · cases hf

/-! ### Pose3D padding in the merge-pair conversion

Embeds `_convert_pair_to_label3d`,
`src/dannce/engine/run/data.py:1316-1323`: the 12 PAIR keypoints are
scattered into a 20-channel rat7m-shaped array initialised to NaN
(`np.ones(...) * np.nan`), the 8 unmapped channels staying NaN. -/

/-- `pair_index = np.array([0,1,2,3,4,5,6,7,8,9,12,13])` (data.py:1317). -/
def pair_index : List Nat := [0, 1, 2, 3, 4, 5, 6, 7, 8, 9, 12, 13]

/-- `pose3d1_r7m = np.ones((*shape, 20)) * np.nan;
pose3d1_r7m[:, :, pair_index] = pose3d1` (data.py:1318-1319): channel `k`
receives column `j` of the source pose when `pair_index[j] = k`, and NaN
otherwise. -/
def padToRat7m (p : Pose) : Pose :=
  (List.range 20).map fun k =>
    match pair_index.findIdx? fun j => j == k with
    | some j => (p : List (Option Vec3)).getD j none
    | none => none

/-- All keypoint columns finite (a fully valid Pose3D). -/
def fullyValid (p : Pose) : Bool := (p : List (Option Vec3)).all fun kp => kp.isSome

/-- All keypoint columns NaN (an entirely unset Pose3D). -/
def fullyUnset (p : Pose) : Bool := (p : List (Option Vec3)).all fun kp => kp.isNone

/-- A concrete fully valid 12-keypoint PAIR pose. -/
def p12 : Pose := (List.replicate 12 (some ⟨1, 2, 3⟩) : List (Option Vec3))

/-- Counterexample to C6: the merge-pair padding maps the fully valid
12-keypoint pose `p12` to a 20-channel pose that is neither fully valid
nor entirely unset — the pipeline does produce partially-set Pose3D
arrays. -/
theorem pad_produces_partial_pose :
    fullyValid p12 = true
    ∧ fullyValid (padToRat7m p12) = false
    ∧ fullyUnset (padToRat7m p12) = false := by
  refine ⟨rfl, rfl, rfl⟩

lemma getD_isSome_of_fullyValid (p : Pose) (hlen : p.length = 12)
    (hv : fullyValid p = true) (j : Nat) (hj : j < 12) :
    (p.getD j none).isSome = true := by
  have hjl : j < p.length := by omega
  rw [List.getD_eq_getElem p none hjl]
  rw [fullyValid, List.all_eq_true] at hv
  exact hv _ (List.getElem_mem hjl)

/-- C6 amended: a Pose3D need not be fully valid or entirely unset — the
merge-pair padding leaves exactly the 8 unmapped channels NaN: for every
fully valid 12-keypoint pose, the padded 20-channel pose has a finite
vector on every `pair_index` channel, NaN on every other channel, and is
therefore neither fully valid nor entirely unset (partially set). -/
theorem padToRat7m_partially_set (p : Pose) (hlen : p.length = 12)
    (hv : fullyValid p = true) :
    (padToRat7m p).length = 20
    ∧ fullyValid (padToRat7m p) = false
    ∧ fullyUnset (padToRat7m p) = false
    ∧ (∀ k ∈ pair_index, ((padToRat7m p).getD k none).isSome = true)
    ∧ (∀ k, k < 20 → k ∉ pair_index → (padToRat7m p).getD k none = none) := by
  have hmapped : ∀ k ∈ pair_index, ((padToRat7m p).getD k none).isSome = true := by
    intro k hk
    fin_cases hk
    · exact getD_isSome_of_fullyValid p hlen hv 0 (by omega)
    · exact getD_isSome_of_fullyValid p hlen hv 1 (by omega)
    · exact getD_isSome_of_fullyValid p hlen hv 2 (by omega)
    · exact getD_isSome_of_fullyValid p hlen hv 3 (by omega)
    · exact getD_isSome_of_fullyValid p hlen hv 4 (by omega)
    · exact getD_isSome_of_fullyValid p hlen hv 5 (by omega)
    · exact getD_isSome_of_fullyValid p hlen hv 6 (by omega)
    · exact getD_isSome_of_fullyValid p hlen hv 7 (by omega)
    · exact getD_isSome_of_fullyValid p hlen hv 8 (by omega)
    · exact getD_isSome_of_fullyValid p hlen hv 9 (by omega)
    · exact getD_isSome_of_fullyValid p hlen hv 10 (by omega)
    · exact getD_isSome_of_fullyValid p hlen hv 11 (by omega)
  have hlen20 : (padToRat7m p).length = 20 := by
    unfold padToRat7m
    rw [List.length_map, List.length_range]
  have h10 : (padToRat7m p).getD 10 none = none := rfl
  have h0 : (padToRat7m p).getD 0 none = p.getD 0 none := rfl
  refine ⟨hlen20, ?_, ?_, hmapped, ?_⟩
  · cases hfv : fullyValid (padToRat7m p)
    · rfl
    · exfalso
      rw [fullyValid, List.all_eq_true] at hfv
      have hmem : (padToRat7m p).getD 10 none ∈ padToRat7m p := by
        rw [List.getD_eq_getElem (padToRat7m p) none (by omega)]
        exact List.getElem_mem (by omega)
      have := hfv _ hmem
      rw [h10] at this
      cases this
  · cases hfu : fullyUnset (padToRat7m p)
    · rfl
    · exfalso
      rw [fullyUnset, List.all_eq_true] at hfu
      have hmem : (padToRat7m p).getD 0 none ∈ padToRat7m p := by
        rw [List.getD_eq_getElem (padToRat7m p) none (by omega)]
        exact List.getElem_mem (by omega)
      have hun := hfu _ hmem
      have hs := hmapped 0 (by simp [pair_index])
      rw [Option.isNone_iff_eq_none] at hun
      rw [hun] at hs
      cases hs
  · intro k hk20 hknot
    interval_cases k <;>
      first
        | rfl
        | exact absurd (by simp [pair_index]) hknot

/-- Witness for C6's amended theorem at the concrete pose `p12`. -/
theorem padToRat7m_partially_set_witness :
    (padToRat7m p12).length = 20
    ∧ fullyValid (padToRat7m p12) = false
    ∧ fullyUnset (padToRat7m p12) = false :=
  ⟨(padToRat7m_partially_set p12 rfl rfl).1,
    (padToRat7m_partially_set p12 rfl rfl).2.1,
    (padToRat7m_partially_set p12 rfl rfl).2.2.1⟩

/-! ### Sample-identifier encoding

Embeds the `str(i) + "_" + str(frame)` identifier construction
(`_convert_rat7m_to_label3d`, `src/dannce/engine/run/data.py:267-271`)
and its decomposition `int(samp.split("_")[0]), samp.split("_")[1]`
(data.py:428-443).  Identifiers are modelled as their character lists;
decimal rendering of naturals is spelled out so that the round-trip can
be proved. -/

/-- Big-endian decimal digit list of a natural number (the digit values
of Python's `str(n)`). -/
def natDigits (n : Nat) : List Nat :=
  if _h : n < 10 then [n]
  else natDigits (n / 10) ++ [n % 10]
termination_by n
decreasing_by
  exact Nat.div_lt_self (by omega) (by omega)

/-- Reassemble a natural number from its big-endian digits (Python's
`int(...)` on a digit string). -/
def digitsToNat (ds : List Nat) : Nat := ds.foldl (fun a d => a * 10 + d) 0

/-- Render one decimal digit as a character. -/
def digitChar (d : Nat) : Char :=
  match d with
  | 0 => '0'
  | 1 => '1'
  | 2 => '2'
  | 3 => '3'
  | 4 => '4'
  | 5 => '5'
  | 6 => '6'
  | 7 => '7'
  | 8 => '8'
  | _ => '9'

/-- Numeric value of a decimal digit character (`int` semantics). -/
def digitVal (c : Char) : Nat := c.toNat - 48

/-- `str(n)` for a natural number, as a character list. -/
def natChars (n : Nat) : List Char := (natDigits n).map digitChar

/-- `int(token)` for a digit-character token. -/
def charsToNat (cs : List Char) : Nat := digitsToNat (cs.map digitVal)

/-- Python's `s.split("_")` on a character list. -/
def splitUnderscore : List Char → List (List Char)
  | [] => [[]]
  | c :: cs =>
    if c = '_' then [] :: splitUnderscore cs
    else
      match splitUnderscore cs with
      | [] => [[c]]
      | t :: ts => (c :: t) :: ts

/-- `str(i) + "_" + str(frame)` (data.py:267-269). -/
def encodeSampleID (e frame : Nat) : List Char :=
  natChars e ++ '_' :: natChars frame

/-- `int(samp.split("_")[0]), samp.split("_")[1]` (data.py:436): the
experiment index and the frame token.  `none` when the identifier has no
underscore (Python would raise an IndexError). -/
def decomposeSampleID (l : List Char) : Option (Nat × List Char) :=
  match splitUnderscore l with
  | a :: b :: _ => some (charsToNat a, b)
  | _ => none

/-- Re-encoding a decomposed identifier, as in `f"{e}_{sampleID}"`-style
reconstructions of the pipeline. -/
def reencodeSampleID (e : Nat) (frameTok : List Char) : List Char :=
  natChars e ++ '_' :: frameTok

lemma digitsToNat_append_digit (ds : List Nat) (d : Nat) :
    digitsToNat (ds ++ [d]) = 10 * digitsToNat ds + d := by
  unfold digitsToNat
  rw [List.foldl_append]
  simp
  ring

lemma digitsToNat_natDigits (n : Nat) : digitsToNat (natDigits n) = n := by
  induction n using Nat.strong_induction_on with
  | _ n ih =>
    rw [natDigits]
    by_cases h : n < 10
    · rw [dif_pos h]
      unfold digitsToNat
      simp
    · rw [dif_neg h]
      rw [digitsToNat_append_digit]
      rw [ih (n / 10) (Nat.div_lt_self (by omega) (by omega))]
      omega

lemma natDigits_lt_ten (n : Nat) : ∀ d ∈ natDigits n, d < 10 := by
  induction n using Nat.strong_induction_on with
  | _ n ih =>
    rw [natDigits]
    by_cases h : n < 10
    · rw [dif_pos h]
      intro d hd
      simp at hd
      omega
    · rw [dif_neg h]
      intro d hd
      rw [List.mem_append] at hd
      rcases hd with hd | hd
      · exact ih (n / 10) (Nat.div_lt_self (by omega) (by omega)) d hd
      · simp at hd
        omega

lemma digitChar_ne_underscore (d : Nat) : digitChar d ≠ '_' := by
  unfold digitChar
  split <;> decide

lemma digitVal_digitChar (d : Nat) (h : d < 10) : digitVal (digitChar d) = d := by
  interval_cases d <;> rfl

lemma underscore_not_mem_natChars (n : Nat) : '_' ∉ natChars n := by
  unfold natChars
  rw [List.mem_map]
  rintro ⟨d, _, hd⟩
  exact digitChar_ne_underscore d hd

lemma map_digitVal_digitChar (ds : List Nat) (h : ∀ d ∈ ds, d < 10) :
    ds.map (fun d => digitVal (digitChar d)) = ds := by
  induction ds with
  | nil => rfl
  | cons d ds ih =>
    rw [List.map_cons]
    rw [digitVal_digitChar d (h d (List.mem_cons_self d ds))]
    rw [ih fun x hx => h x (List.mem_cons_of_mem d hx)]

lemma charsToNat_natChars (n : Nat) : charsToNat (natChars n) = n := by
  unfold charsToNat natChars
  rw [List.map_map]
  have heq : (natDigits n).map (digitVal ∘ digitChar) = natDigits n :=
    map_digitVal_digitChar (natDigits n) (natDigits_lt_ten n)
  rw [heq]
  exact digitsToNat_natDigits n

lemma splitUnderscore_cons (c : Char) (cs : List Char) :
    splitUnderscore (c :: cs) =
      if c = '_' then [] :: splitUnderscore cs
      else
        match splitUnderscore cs with
        | [] => [[c]]
        | t :: ts => (c :: t) :: ts := rfl

lemma splitUnderscore_no_sep (l : List Char) (h : '_' ∉ l) :
    splitUnderscore l = [l] := by
  induction l with
  | nil => rfl
  | cons c cs ih =>
    rw [List.mem_cons] at h
    push_neg at h
    rw [splitUnderscore_cons, if_neg (fun hc => h.1 hc.symm)]
    rw [ih h.2]

lemma splitUnderscore_append (l1 l2 : List Char) (h : '_' ∉ l1) :
    splitUnderscore (l1 ++ '_' :: l2) = l1 :: splitUnderscore l2 := by
  induction l1 with
  | nil =>
    rw [List.nil_append, splitUnderscore_cons, if_pos rfl]
  | cons c cs ih =>
    rw [List.mem_cons] at h
    push_neg at h
    rw [List.cons_append]
    rw [splitUnderscore_cons, if_neg (fun hc => h.1 hc.symm)]
    rw [ih h.2]

/-- C8: decomposing a pipeline-encoded sample identifier into its
(experiment index, frame token) parts and re-encoding them yields the
identical identifier. -/
theorem sampleID_roundtrip (e frame : Nat) :
    (decomposeSampleID (encodeSampleID e frame)).map
        (fun pr => reencodeSampleID pr.1 pr.2)
      = some (encodeSampleID e frame) := by
  unfold decomposeSampleID encodeSampleID
  rw [splitUnderscore_append _ _ (underscore_not_mem_natChars e)]
  rw [splitUnderscore_no_sep _ (underscore_not_mem_natChars frame)]
  simp [reencodeSampleID, charsToNat_natChars]

/-! ### COM augmentation

Embeds `sample_COM_augmentation`, `src/dannce/engine/run/data.py:494-536`.
The per-(iteration, sample) draws of `np.random.rand(3)` are passed in as
an explicit function `u` with values in `[0,1)`; the loop over
`range(aug_iters)` and the captured `train_samples` list are modelled by
a fold (the `if sample not in train_samples: continue` guard of the
source is vacuous, since the loop iterates over that very list).  Python
dictionaries become `Option`-valued functions updated at the new key; a
key absent from a dictionary (which would raise `KeyError`) is modelled
as a skip, and the theorems only quantify over present keys. -/

/-- `sample_new = sample + "-comaug{}".format(iter)` (data.py:527). -/
def comaugTag (s : String) (iter : Nat) : String :=
  s ++ "-comaug" ++ toString iter

/-- `com_aug = perturb_radius * 2 * np.random.rand(...) - perturb_radius`
(data.py:521-523), for one draw `u` per axis. -/
def comAugOffset (r : ℚ) (u : Vec3) : Vec3 :=
  ⟨r * 2 * u.x - r, r * 2 * u.y - r, r * 2 * u.z - r⟩

/-- `np.isnan(datadict_3d[sample]).all()` (data.py:517). -/
def isAllNaN (p : Pose) : Bool := p.all fun kp => kp.isNone

/-- The mutable state of the augmentation loop: the 3D-annotation and COM
dictionaries plus `train_samples_new`. -/
structure ComAugState where
  pose : String → Option Pose
  com : String → Option Vec3
  newIDs : List String

/-- Whether one sample passes the augmentation guards: present in both
dictionaries with a not-entirely-NaN Pose3D (data.py:513-518). -/
def comAugEligible (pose : String → Option Pose) (com : String → Option Vec3)
    (s : String) : Bool :=
  match pose s with
  | none => false
  | some p => if isAllNaN p then false else (com s).isSome

/-- One inner-loop step (data.py:511-531): skip unlabeled samples,
otherwise insert the perturbed COM, the copied Pose3D and the tagged ID.
`com3d_new = deepcopy(com3d_dict[sample])` is why the functional update
is faithful: the stored original is never mutated. -/
def comAugStep (r : ℚ) (u : Nat → String → Vec3) (iter : Nat)
    (st : ComAugState) (s : String) : ComAugState :=
  match st.pose s with
  | none => st
  | some p =>
    if isAllNaN p then st
    else
      match st.com s with
      | none => st
      | some c =>
        { pose := fun k => if k = comaugTag s iter then some p else st.pose k
          com := fun k => if k = comaugTag s iter then
              some (vecAdd c (comAugOffset r (u iter s))) else st.com k
          newIDs := st.newIDs ++ [comaugTag s iter] }

/-- The two nested loops (data.py:509-531): `for iter in
range(aug_iters): for sample in train_samples`. -/
def comAugLoop (r : ℚ) (u : Nat → String → Vec3) (train : List String)
    (st : ComAugState) : Nat → ComAugState
  | 0 => st
  | m + 1 => train.foldl (comAugStep r u m) (comAugLoop r u train st m)

/-- `sample_COM_augmentation` (data.py:494-536): returns the updated
dictionaries (inside the final state), the new train ID list
(`sorted(train_samples + train_samples_new)`; sorting only permutes) and
the untouched valid ID list. -/
def sample_COM_augmentation (pose : String → Option Pose)
    (com : String → Option Vec3) (train valid : List String) (r : ℚ) (m : Nat)
    (u : Nat → String → Vec3) : ComAugState × List String × List String :=
  let st := comAugLoop r u train ⟨pose, com, []⟩ m
  (st, train ++ st.newIDs, valid)

/-- The IDs `train_samples_new` accumulates: per completed iteration, one
tagged ID for each eligible train sample, in loop order. -/
def comAugExpectedIDs (pose : String → Option Pose) (com : String → Option Vec3)
    (train : List String) : Nat → List String
  | 0 => []
  | m + 1 => comAugExpectedIDs pose com train m ++
      (train.filter (comAugEligible pose com)).map fun s => comaugTag s m

lemma comAug_inner (pose : String → Option Pose) (com : String → Option Vec3)
    (r : ℚ) (u : Nat → String → Vec3) (iter : Nat) :
    ∀ (l : List String) (st : ComAugState),
      (∀ s ∈ l, st.pose s = pose s) →
      (∀ s ∈ l, st.com s = com s) →
      (∀ s ∈ l, ∀ t ∈ l, comaugTag s iter ≠ t) →
      ((l.foldl (comAugStep r u iter) st).newIDs =
          st.newIDs ++ (l.filter (comAugEligible pose com)).map fun s =>
            comaugTag s iter)
      ∧ (∀ k, (∀ s ∈ l, k ≠ comaugTag s iter) →
          (l.foldl (comAugStep r u iter) st).pose k = st.pose k
          ∧ (l.foldl (comAugStep r u iter) st).com k = st.com k)
      ∧ (∀ s ∈ l, comAugEligible pose com s = true →
          (∀ t ∈ l, comaugTag t iter = comaugTag s iter → t = s) →
          ∃ p c, pose s = some p ∧ com s = some c ∧
            (l.foldl (comAugStep r u iter) st).pose (comaugTag s iter) = some p ∧
            (l.foldl (comAugStep r u iter) st).com (comaugTag s iter) =
              some (vecAdd c (comAugOffset r (u iter s)))) := by
  intro l
  induction l with
  | nil =>
    intro st _ _ _
    refine ⟨by simp, ?_, ?_⟩
    · intro k _; exact ⟨rfl, rfl⟩
    · intro s hs; cases hs
  | cons a l ih =>
    intro st hpose hcom htag
    have hpa : st.pose a = pose a := hpose a (List.mem_cons_self a l)
    have hca : st.com a = com a := hcom a (List.mem_cons_self a l)
    have hfold : (a :: l).foldl (comAugStep r u iter) st =
        l.foldl (comAugStep r u iter) (comAugStep r u iter st a) := rfl
    have hposeT : ∀ s ∈ l, st.pose s = pose s :=
      fun s hs => hpose s (List.mem_cons_of_mem a hs)
    have hcomT : ∀ s ∈ l, st.com s = com s :=
      fun s hs => hcom s (List.mem_cons_of_mem a hs)
    have htagT : ∀ s ∈ l, ∀ t ∈ l, comaugTag s iter ≠ t :=
      fun s hs t ht => htag s (List.mem_cons_of_mem a hs) t (List.mem_cons_of_mem a ht)
    rcases hp : pose a with _ | p
    · -- absent Pose3D entry: skipped
      have hstep : comAugStep r u iter st a = st := by
        simp [comAugStep, hpa, hp]
      have helig : comAugEligible pose com a = false := by
        simp [comAugEligible, hp]
      obtain ⟨ih1, ih2, ih3⟩ := ih st hposeT hcomT htagT
      refine ⟨?_, ?_, ?_⟩
      · rw [hfold, hstep, ih1, List.filter_cons_of_neg (by rw [helig]; decide)]
      · intro k hk
        rw [hfold, hstep]
        exact ih2 k fun s hs => hk s (List.mem_cons_of_mem a hs)
      · intro s hs he hi
        rcases List.mem_cons.mp hs with heq | hsl
        · subst heq
          rw [helig] at he; cases he
        · rw [hfold, hstep]
          exact ih3 s hsl he fun t ht => hi t (List.mem_cons_of_mem a ht)
    · by_cases hnan : isAllNaN p
      · -- entirely-NaN Pose3D: unlabeled, skipped
        have hstep : comAugStep r u iter st a = st := by
          simp [comAugStep, hpa, hp, hnan]
        have helig : comAugEligible pose com a = false := by
          simp [comAugEligible, hp, hnan]
        obtain ⟨ih1, ih2, ih3⟩ := ih st hposeT hcomT htagT
        refine ⟨?_, ?_, ?_⟩
        · rw [hfold, hstep, ih1, List.filter_cons_of_neg (by rw [helig]; decide)]
        · intro k hk
          rw [hfold, hstep]
          exact ih2 k fun s hs => hk s (List.mem_cons_of_mem a hs)
        · intro s hs he hi
          rcases List.mem_cons.mp hs with heq | hsl
          · subst heq
            rw [helig] at he; cases he
          · rw [hfold, hstep]
            exact ih3 s hsl he fun t ht => hi t (List.mem_cons_of_mem a ht)
      · rcases hc : com a with _ | c
        · -- absent COM entry: skipped
          have hstep : comAugStep r u iter st a = st := by
            simp [comAugStep, hpa, hp, hnan, hca, hc]
          have helig : comAugEligible pose com a = false := by
            simp [comAugEligible, hp, hnan, hc]
          obtain ⟨ih1, ih2, ih3⟩ := ih st hposeT hcomT htagT
          refine ⟨?_, ?_, ?_⟩
          · rw [hfold, hstep, ih1, List.filter_cons_of_neg (by rw [helig]; decide)]
          · intro k hk
            rw [hfold, hstep]
            exact ih2 k fun s hs => hk s (List.mem_cons_of_mem a hs)
          · intro s hs he hi
            rcases List.mem_cons.mp hs with heq | hsl
            · subst heq
              rw [helig] at he; cases he
            · rw [hfold, hstep]
              exact ih3 s hsl he fun t ht => hi t (List.mem_cons_of_mem a ht)
        · -- eligible: a new tagged sample is inserted
          have hstep : comAugStep r u iter st a =
              { pose := fun k => if k = comaugTag a iter then some p else st.pose k
                com := fun k => if k = comaugTag a iter then
                    some (vecAdd c (comAugOffset r (u iter a))) else st.com k
                newIDs := st.newIDs ++ [comaugTag a iter] } := by
            simp [comAugStep, hpa, hp, hnan, hca, hc]
          have helig : comAugEligible pose com a = true := by
            simp [comAugEligible, hp, hnan, hc]
          have hpose1 : ∀ s ∈ l, (comAugStep r u iter st a).pose s = pose s := by
            intro s hs
            rw [hstep]
            have hne : s ≠ comaugTag a iter :=
              fun h => htag a (List.mem_cons_self a l) s (List.mem_cons_of_mem a hs) h.symm
            simpa [hne] using hposeT s hs
          have hcom1 : ∀ s ∈ l, (comAugStep r u iter st a).com s = com s := by
            intro s hs
            rw [hstep]
            have hne : s ≠ comaugTag a iter :=
              fun h => htag a (List.mem_cons_self a l) s (List.mem_cons_of_mem a hs) h.symm
            simpa [hne] using hcomT s hs
          obtain ⟨ih1, ih2, ih3⟩ := ih (comAugStep r u iter st a) hpose1 hcom1 htagT
          refine ⟨?_, ?_, ?_⟩
          · rw [hfold, ih1, List.filter_cons_of_pos (by rw [helig]), hstep]
            simp
          · intro k hk
            rw [hfold]
            have h2 := ih2 k fun s hs => hk s (List.mem_cons_of_mem a hs)
            have hka : k ≠ comaugTag a iter := hk a (List.mem_cons_self a l)
            rw [h2.1, h2.2, hstep]
            constructor <;> simp [hka]
          · intro s hs he hi
            rcases List.mem_cons.mp hs with heq | hsl
            · subst heq
              by_cases hal : s ∈ l
              · rw [hfold]
                exact ih3 s hal he fun t ht => hi t (List.mem_cons_of_mem s ht)
              · have hk : ∀ t ∈ l, comaugTag s iter ≠ comaugTag t iter := by
                  intro t ht heqt
                  exact hal ((hi t (List.mem_cons_of_mem s ht) heqt.symm) ▸ ht)
                rw [hfold]
                have h2 := ih2 (comaugTag s iter) hk
                refine ⟨p, c, hp, hc, ?_, ?_⟩
                · rw [h2.1, hstep]
                  simp
                · rw [h2.2, hstep]
                  simp
            · rw [hfold]
              exact ih3 s hsl he fun t ht => hi t (List.mem_cons_of_mem a ht)

lemma comAugExpectedIDs_length (pose : String → Option Pose)
    (com : String → Option Vec3) (train : List String) :
    ∀ m, (comAugExpectedIDs pose com train m).length =
      m * (train.filter (comAugEligible pose com)).length := by
  intro m
  induction m with
  | zero => simp [comAugExpectedIDs]
  | succ m ih =>
    show (comAugExpectedIDs pose com train m ++ _).length = _
    rw [List.length_append, ih, List.length_map]
    ring

lemma mem_comAugExpectedIDs (pose : String → Option Pose)
    (com : String → Option Vec3) (train : List String) :
    ∀ m t, t ∈ comAugExpectedIDs pose com train m ↔
      ∃ i, i < m ∧ ∃ s, s ∈ train ∧ comAugEligible pose com s = true ∧
        t = comaugTag s i := by
  intro m
  induction m with
  | zero =>
    intro t
    constructor
    · intro h; cases h
    · rintro ⟨i, hi, _⟩; omega
  | succ m ih =>
    intro t
    show t ∈ comAugExpectedIDs pose com train m ++ _ ↔ _
    rw [List.mem_append, ih t]
    constructor
    · rintro (⟨i, hi, s, hs, he, rfl⟩ | hmem)
      · exact ⟨i, by omega, s, hs, he, rfl⟩
      · rw [List.mem_map] at hmem
        obtain ⟨s, hsf, rfl⟩ := hmem
        rw [List.mem_filter] at hsf
        exact ⟨m, by omega, s, hsf.1, hsf.2, rfl⟩
    · rintro ⟨i, hi, s, hs, he, rfl⟩
      by_cases him : i < m
      · exact Or.inl ⟨i, him, s, hs, he, rfl⟩
      · have : i = m := by omega
        subst this
        refine Or.inr ?_
        rw [List.mem_map]
        exact ⟨s, List.mem_filter.mpr ⟨hs, he⟩, rfl⟩

lemma comAug_loop_spec (pose : String → Option Pose) (com : String → Option Vec3)
    (r : ℚ) (u : Nat → String → Vec3) (train : List String) :
    ∀ (m : Nat),
      (∀ i ∈ List.range m, ∀ s ∈ train, comaugTag s i ∉ train) →
      (∀ i ∈ List.range m, ∀ j ∈ List.range m, ∀ s ∈ train, ∀ t ∈ train,
        comaugTag s i = comaugTag t j → s = t ∧ i = j) →
      ((comAugLoop r u train ⟨pose, com, []⟩ m).newIDs
          = comAugExpectedIDs pose com train m)
      ∧ (∀ k, (∀ i ∈ List.range m, ∀ s ∈ train, k ≠ comaugTag s i) →
          (comAugLoop r u train ⟨pose, com, []⟩ m).pose k = pose k
          ∧ (comAugLoop r u train ⟨pose, com, []⟩ m).com k = com k)
      ∧ (∀ i ∈ List.range m, ∀ s ∈ train, comAugEligible pose com s = true →
          ∃ p c, pose s = some p ∧ com s = some c ∧
            (comAugLoop r u train ⟨pose, com, []⟩ m).pose (comaugTag s i) = some p ∧
            (comAugLoop r u train ⟨pose, com, []⟩ m).com (comaugTag s i) =
              some (vecAdd c (comAugOffset r (u i s)))) := by
  intro m
  induction m with
  | zero =>
    intro _ _
    refine ⟨rfl, ?_, ?_⟩
    · intro k _; exact ⟨rfl, rfl⟩
    · intro i hi; simp at hi
  | succ m ih =>
    intro hfresh hinj
    have hfreshm : ∀ i ∈ List.range m, ∀ s ∈ train, comaugTag s i ∉ train := by
      intro i hi
      exact hfresh i (by rw [List.mem_range] at hi ⊢; omega)
    have hinjm : ∀ i ∈ List.range m, ∀ j ∈ List.range m, ∀ s ∈ train, ∀ t ∈ train,
        comaugTag s i = comaugTag t j → s = t ∧ i = j := by
      intro i hi j hj
      exact hinj i (by rw [List.mem_range] at hi ⊢; omega)
        j (by rw [List.mem_range] at hj ⊢; omega)
    obtain ⟨ihIDs, ihFrame, ihTag⟩ := ih hfreshm hinjm
    have hmmem : m ∈ List.range (m + 1) := by rw [List.mem_range]; omega
    have hLmPose : ∀ s ∈ train, (comAugLoop r u train ⟨pose, com, []⟩ m).pose s = pose s := by
      intro s hs
      refine (ihFrame s ?_).1
      intro i hi t ht heq
      exact hfreshm i hi t ht (heq ▸ hs)
    have hLmCom : ∀ s ∈ train, (comAugLoop r u train ⟨pose, com, []⟩ m).com s = com s := by
      intro s hs
      refine (ihFrame s ?_).2
      intro i hi t ht heq
      exact hfreshm i hi t ht (heq ▸ hs)
    have hTagIn : ∀ s ∈ train, ∀ t ∈ train, comaugTag s m ≠ t := by
      intro s hs t ht heq
      exact hfresh m hmmem s hs (heq ▸ ht)
    obtain ⟨in1, in2, in3⟩ := comAug_inner pose com r u m train
      (comAugLoop r u train ⟨pose, com, []⟩ m) hLmPose hLmCom hTagIn
    have hsucc : comAugLoop r u train ⟨pose, com, []⟩ (m + 1) =
        train.foldl (comAugStep r u m) (comAugLoop r u train ⟨pose, com, []⟩ m) := rfl
    refine ⟨?_, ?_, ?_⟩
    · rw [hsucc, in1, ihIDs]
      rfl
    · intro k hk
      rw [hsucc]
      have h2 := in2 k fun s hs => hk m hmmem s hs
      rw [h2.1, h2.2]
      exact ihFrame k fun i hi s hs =>
        hk i (by rw [List.mem_range] at hi ⊢; omega) s hs
    · intro i hi s hs he
      rw [List.mem_range] at hi
      rw [hsucc]
      by_cases him : i < m
      · obtain ⟨p, c, hp, hc, hLp, hLc⟩ := ihTag i (List.mem_range.mpr him) s hs he
        have hk : ∀ t ∈ train, comaugTag s i ≠ comaugTag t m := by
          intro t ht heq
          have := hinj i (List.mem_range.mpr (by omega)) m hmmem s hs t ht heq
          omega
        have h2 := in2 (comaugTag s i) hk
        exact ⟨p, c, hp, hc, by rw [h2.1, hLp], by rw [h2.2, hLc]⟩
      · have him' : i = m := by omega
        have hinjIn : ∀ t ∈ train, comaugTag t m = comaugTag s m → t = s := by
          intro t ht heq
          exact (hinj m hmmem m hmmem t ht s hs heq).1
        obtain ⟨p, c, hp, hc, hLp, hLc⟩ := in3 s hs he hinjIn
        rw [him']
        exact ⟨p, c, hp, hc, hLp, hLc⟩

/-- C3: COM augmentation with radius `r` and `m` iterations
adds exactly `m` tagged samples per eligible labeled train sample
(`m * #eligible` in total, with `comaugTag s i ∈ newIDs` for every
`i < m`), touches the train split only (the valid split is returned
unchanged and no new ID lands in it), gives each synthetic sample a COM
within `r` of the original on every axis and the original's Pose3D
unchanged, and leaves every pre-existing dictionary entry intact.  The
freshness/injectivity hypotheses state that the `-comaug{i}` tags do not
collide with existing IDs or each other, which holds for the pipeline's
`expidx_frame` identifiers. -/
theorem sample_COM_augmentation_correct
    (pose : String → Option Pose) (com : String → Option Vec3)
    (train valid : List String) (r : ℚ) (m : Nat) (u : Nat → String → Vec3)
    (hfresh : ∀ i ∈ List.range m, ∀ s ∈ train, comaugTag s i ∉ train)
    (hinj : ∀ i ∈ List.range m, ∀ j ∈ List.range m, ∀ s ∈ train, ∀ t ∈ train,
      comaugTag s i = comaugTag t j → s = t ∧ i = j)
    (hfv : ∀ i ∈ List.range m, ∀ s ∈ train, comaugTag s i ∉ valid)
    (hr : 0 ≤ r)
    (hu : ∀ i ∈ List.range m, ∀ s ∈ train,
      0 ≤ (u i s).x ∧ (u i s).x < 1 ∧ 0 ≤ (u i s).y ∧ (u i s).y < 1 ∧
        0 ≤ (u i s).z ∧ (u i s).z < 1) :
    ((sample_COM_augmentation pose com train valid r m u).2.1 =
        train ++ (comAugLoop r u train ⟨pose, com, []⟩ m).newIDs)
    ∧ (sample_COM_augmentation pose com train valid r m u).2.2 = valid
    ∧ (comAugLoop r u train ⟨pose, com, []⟩ m).newIDs.length =
        m * (train.filter (comAugEligible pose com)).length
    ∧ (∀ i ∈ List.range m, ∀ s ∈ train, comAugEligible pose com s = true →
        comaugTag s i ∈ (comAugLoop r u train ⟨pose, com, []⟩ m).newIDs)
    ∧ (∀ t ∈ (comAugLoop r u train ⟨pose, com, []⟩ m).newIDs, t ∉ valid)
    ∧ (∀ i ∈ List.range m, ∀ s ∈ train, comAugEligible pose com s = true →
        ∃ p c, pose s = some p ∧ com s = some c ∧
          (comAugLoop r u train ⟨pose, com, []⟩ m).pose (comaugTag s i) = some p ∧
          (comAugLoop r u train ⟨pose, com, []⟩ m).com (comaugTag s i) =
            some (vecAdd c (comAugOffset r (u i s))) ∧
          |(comAugOffset r (u i s)).x| ≤ r ∧ |(comAugOffset r (u i s)).y| ≤ r ∧
          |(comAugOffset r (u i s)).z| ≤ r)
    ∧ (∀ k, (∀ i ∈ List.range m, ∀ s ∈ train, k ≠ comaugTag s i) →
        (comAugLoop r u train ⟨pose, com, []⟩ m).pose k = pose k
        ∧ (comAugLoop r u train ⟨pose, com, []⟩ m).com k = com k) := by
  obtain ⟨hIDs, hFrame, hTag⟩ := comAug_loop_spec pose com r u train m hfresh hinj
  refine ⟨rfl, rfl, ?_, ?_, ?_, ?_, ?_⟩
  · rw [hIDs]
    exact comAugExpectedIDs_length pose com train m
  · intro i hi s hs he
    rw [hIDs, mem_comAugExpectedIDs]
    exact ⟨i, List.mem_range.mp hi, s, hs, he, rfl⟩
  · intro t ht
    rw [hIDs, mem_comAugExpectedIDs] at ht
    obtain ⟨i, hi, s, hs, _, rfl⟩ := ht
    exact hfv i (List.mem_range.mpr hi) s hs
  · intro i hi s hs he
    obtain ⟨p, c, hp, hc, hLp, hLc⟩ := hTag i hi s hs he
    obtain ⟨hux0, hux1, huy0, huy1, huz0, huz1⟩ := hu i hi s hs
    refine ⟨p, c, hp, hc, hLp, hLc, ?_, ?_, ?_⟩
    · unfold comAugOffset
      dsimp only
      rw [abs_le]
      constructor <;> nlinarith
    · unfold comAugOffset
      dsimp only
      rw [abs_le]
      constructor <;> nlinarith
    · unfold comAugOffset
      dsimp only
      rw [abs_le]
      constructor <;> nlinarith
  · exact hFrame

/-- Concrete Pose3D table for the C3 witness: one labeled train sample. -/
def w3Pose : String → Option Pose := fun s =>
  if s = "0_1" then some ([some ⟨1, 2, 3⟩] : List (Option Vec3)) else none

/-- Concrete COM table for the C3 witness. -/
def w3Com : String → Option Vec3 := fun s =>
  if s = "0_1" then some ⟨0, 0, 0⟩ else none

/-- Concrete uniform draws for the C3 witness (all zero, i.e. every
perturbation is exactly `-r` per axis). -/
def w3u : Nat → String → Vec3 := fun _ _ => ⟨0, 0, 0⟩

/-- Witness for C3 at a concrete one-sample train split with `r = 5`,
`m = 2`: two new samples are created (2 = 2 x 1 eligible) and the valid
split comes back unchanged. -/
theorem sample_COM_augmentation_correct_witness :
    (comAugLoop 5 w3u ["0_1"] ⟨w3Pose, w3Com, []⟩ 2).newIDs.length =
        2 * ((["0_1"].filter (comAugEligible w3Pose w3Com)).length)
    ∧ (sample_COM_augmentation w3Pose w3Com ["0_1"] ["0_2"] 5 2 w3u).2.2 = ["0_2"] :=
  have h := sample_COM_augmentation_correct w3Pose w3Com ["0_1"] ["0_2"] 5 2 w3u
    (by decide) (by decide) (by decide) (by norm_num)
    (by intro i _ s _; refine ⟨?_, ?_, ?_, ?_, ?_, ?_⟩ <;> norm_num [w3u])
  ⟨h.2.2.1, h.2.1⟩
